import Mathlib

/-
Verification of the HyperEVM monitor core (RPC management, block ingestion,
token detection, checkpointing, wallet token scanning) against its
natural-language specification.  The Lean definitions below are shallow
embeddings of the Python sources:
  monitor.py, core/database.py, processing/block_processor.py,
  scanners/simple_smart_scanner.py, archives/1/core/rpc_manager.py,
  archives/1/core/utils.py, archives/1/detection/address_classifier.py,
  archives/1/detection/token_detector.py, archives/1/config/settings.py.
Network and clock nondeterminism is passed in as explicit oracle
parameters (fetch results, call outcomes, endpoint test results, times).
-/

namespace EvmMonitor

/-! ## Constants from config/settings.py -/

def BATCH_SIZE : Nat := 25
def RPC_MAX_FAILURES : Nat := 3
def RPC_RETEST_INTERVAL : Nat := 300

/-! ## Models of Python primitives

Values that flow through the code are hex strings such as "0x1a".  We model
the Python builtin int(s, 16) on the string shapes occurring in this code
base (an optional 0x / 0X prefix followed by hexadecimal digits); it returns
none where the builtin raises ValueError (in particular on "" and on "0x",
whose digit part is empty). -/

def hexDigitVal (c : Char) : Option Nat :=
  if '0' ≤ c ∧ c ≤ '9' then some (c.toNat - '0'.toNat)
  else if 'a' ≤ c ∧ c ≤ 'f' then some (c.toNat - 'a'.toNat + 10)
  else if 'A' ≤ c ∧ c ≤ 'F' then some (c.toNat - 'A'.toNat + 10)
  else none

def hexDigitsVal (cs : List Char) : Option Nat :=
  cs.foldl (fun acc c =>
    match acc, hexDigitVal c with
    | some a, some d => some (a * 16 + d)
    | _, _ => none) (some 0)

def pyIntHex (s : String) : Option Nat :=
  let cs := s.toList
  let t := if ['0', 'x'].isPrefixOf cs ∨ ['0', 'X'].isPrefixOf cs then cs.drop 2
    else cs
  if t = [] then none else hexDigitsVal t

/-- Python truthiness of an optional string: None and "" are falsy. -/
def truthyStr : Option String → Bool
  | none => false
  | some s => s ≠ ""

/-- Models the Python substring test (pat in s). -/
def strContains (s pat : String) : Bool :=
  (List.range (s.length + 1)).any (fun i => pat.toList.isPrefixOf (s.toList.drop i))

/-! ## archives/1/core/utils.py -/

/-- safe_hex_to_int from core/utils.py: int(hex_str, 16) if hex_str and
hex_str != "0x" else 0, with a bare except returning 0. -/
def safe_hex_to_int (hex_str : String) : Nat :=
  if hex_str = "" ∨ hex_str = "0x" then 0
  else match pyIntHex hex_str with
    | some n => n
    | none => 0

/-! ## Endpoint testing and selection (archives/1/core/rpc_manager.py)

A TestResult models the merged dictionary built in find_best_rpc: the
outcome of test_rpc_endpoint (success flag, latency) updated with the
static endpoint record (name, url, priority).  Latency is a rational
number standing for the Python float. -/

structure TestResult where
  success : Bool
  priority : Nat
  latency : ℚ
  name : String
  url : String
  deriving DecidableEq, Repr

/-- The sort key used by find_best_rpc: (priority, latency), strictly. -/
def keyLt (a b : TestResult) : Prop :=
  a.priority < b.priority ∨ (a.priority = b.priority ∧ a.latency < b.latency)

instance : DecidablePred fun p : TestResult × TestResult => keyLt p.1 p.2 :=
  fun _ => by unfold keyLt; infer_instance

instance (a b : TestResult) : Decidable (keyLt a b) := by
  unfold keyLt; infer_instance

/-- The reflexive closure of the key order. -/
def keyLe (a b : TestResult) : Prop :=
  a.priority < b.priority ∨ (a.priority = b.priority ∧ a.latency ≤ b.latency)

instance (a b : TestResult) : Decidable (keyLe a b) := by
  unfold keyLe; infer_instance

/-- Python min(working, key) scans left to right keeping the earliest
element whose key is strictly minimal so far. -/
def minByKey (x : TestResult) (xs : List TestResult) : TestResult :=
  xs.foldl (fun best r => if keyLt r best then r else best) x

/-- find_best_rpc: keep the successful test results, return None when there
are none, otherwise the minimum by (priority, latency). -/
def find_best_rpc (results : List TestResult) : Option TestResult :=
  let working := results.filter (·.success)
  match working with
  | [] => none
  | x :: xs => some (minByKey x xs)

lemma keyLe_refl (a : TestResult) : keyLe a a := by
  unfold keyLe; right; exact ⟨rfl, le_refl _⟩

lemma keyLt_le (a b : TestResult) (h : keyLt a b) : keyLe a b := by
  rcases h with h | ⟨h1, h2⟩
  · exact Or.inl h
  · exact Or.inr ⟨h1, le_of_lt h2⟩

lemma keyLe_of_not_lt (a b : TestResult) (h : ¬ keyLt a b) : keyLe b a := by
  unfold keyLt at h
  push_neg at h
  rcases lt_trichotomy b.priority a.priority with hlt | heq | hgt
  · exact Or.inl hlt
  · exact Or.inr ⟨heq, h.2 heq.symm⟩
  · exact absurd hgt (not_lt.mpr h.1)

lemma keyLe_trans (a b c : TestResult) (h1 : keyLe a b) (h2 : keyLe b c) :
    keyLe a c := by
  rcases h1 with h1 | ⟨e1, l1⟩ <;> rcases h2 with h2 | ⟨e2, l2⟩
  · exact Or.inl (lt_trans h1 h2)
  · exact Or.inl (e2 ▸ h1)
  · exact Or.inl (e1 ▸ h2)
  · exact Or.inr ⟨e1.trans e2, le_trans l1 l2⟩

lemma minByKey_cons (x y : TestResult) (ys : List TestResult) :
    minByKey x (y :: ys) = minByKey (if keyLt y x then y else x) ys := rfl

lemma minByKey_mem (x : TestResult) (xs : List TestResult) :
    minByKey x xs ∈ x :: xs := by
  induction xs generalizing x with
  | nil => simp [minByKey]
  | cons y ys ih =>
    rw [minByKey_cons]
    have h2 := ih (if keyLt y x then y else x)
    rcases List.mem_cons.mp h2 with h3 | h3
    · rw [h3]
      by_cases h : keyLt y x
      · simp [h]
      · simp [h]
    · exact List.mem_cons.mpr (Or.inr (List.mem_cons.mpr (Or.inr h3)))

lemma minByKey_le (x : TestResult) (xs : List TestResult) :
    ∀ r ∈ x :: xs, keyLe (minByKey x xs) r := by
  induction xs generalizing x with
  | nil =>
    intro r hr
    simp only [List.mem_cons, List.not_mem_nil, or_false] at hr
    subst hr
    exact keyLe_refl r
  | cons y ys ih =>
    intro r hr
    rw [minByKey_cons]
    have hx : keyLe (if keyLt y x then y else x) x := by
      by_cases h : keyLt y x
      · simpa [h] using keyLt_le _ _ h
      · simpa [h] using keyLe_refl x
    have hy : keyLe (if keyLt y x then y else x) y := by
      by_cases h : keyLt y x
      · simpa [h] using keyLe_refl y
      · simpa [h] using keyLe_of_not_lt _ _ h
    have hmin := ih (if keyLt y x then y else x)
    have hself : keyLe (minByKey (if keyLt y x then y else x) ys)
        (if keyLt y x then y else x) := hmin _ (List.mem_cons_self _ _)
    rcases List.mem_cons.mp hr with h3 | h3
    · subst h3
      exact keyLe_trans _ _ _ hself hx
    · rcases List.mem_cons.mp h3 with h4 | h4
      · subst h4
        exact keyLe_trans _ _ _ hself hy
      · exact hmin r (List.mem_cons.mpr (Or.inr h4))

lemma find_best_rpc_none_iff (results : List TestResult) :
    find_best_rpc results = none ↔ ∀ r ∈ results, r.success = false := by
  unfold find_best_rpc
  constructor
  · intro h r hr
    by_contra hs
    have hmem : r ∈ results.filter (·.success) :=
      List.mem_filter.mpr ⟨hr, by simpa using hs⟩
    cases hfil : results.filter (·.success) with
    | nil => rw [hfil] at hmem; exact absurd hmem (List.not_mem_nil r)
    | cons x xs => rw [hfil] at h; exact Option.noConfusion h
  · intro h
    have : results.filter (·.success) = [] := by
      apply List.filter_eq_nil_iff.mpr
      intro r hr
      simpa using h r hr
    rw [this]

lemma find_best_rpc_some_spec (results : List TestResult) (b : TestResult)
    (h : find_best_rpc results = some b) :
    b ∈ results ∧ b.success = true ∧
      ∀ r ∈ results, r.success = true → keyLe b r := by
  unfold find_best_rpc at h
  cases hfil : results.filter (·.success) with
  | nil => rw [hfil] at h; exact Option.noConfusion h
  | cons x xs =>
    rw [hfil] at h
    have hb : b = minByKey x xs := by
      injection h with h2
      exact h2.symm
    subst hb
    have hmem := minByKey_mem x xs
    rw [← hfil] at hmem
    refine ⟨(List.mem_filter.mp hmem).1, by simpa using (List.mem_filter.mp hmem).2, ?_⟩
    intro r hr hs
    have : r ∈ results.filter (·.success) := List.mem_filter.mpr ⟨hr, by simpa using hs⟩
    rw [hfil] at this
    exact minByKey_le x xs r this

/-! ## Blocks and transactions

A transaction is the JSON object returned by eth_getBlockByNumber with
includeTx = true; only the "from" and "to" keys are read by this code.
An absent or JSON-null key is modelled as none ("from" is a Lean keyword,
hence the field names fromAddr / toAddr).  A block carries its
"timestamp" hex string (none when the key is absent) and its
"transactions" list (none when the key is absent).  A fetched block that
is Python-falsy or an Exception instance is modelled as none at the
Option Block level. -/

structure Tx where
  fromAddr : Option String
  toAddr : Option String
  deriving DecidableEq, Repr

structure Block where
  timestamp : Option String
  transactions : Option (List Tx)
  deriving DecidableEq, Repr

/-- extract_addresses_from_block from detection/address_classifier.py:
collects the lower-cased truthy "from" / "to" participants into a set
(modelled as a duplicate-free list built with List.insert) and returns the
length of the transaction list. -/
def extract_addresses_from_block (block_data : Option Block) : List String × Nat :=
  match block_data with
  | none => ([], 0)
  | some b =>
    match b.transactions with
    | none => ([], 0)
    | some txs =>
      let addresses := txs.foldl (fun acc tx =>
        let acc1 := match tx.fromAddr with
          | some s => if s ≠ "" then acc.insert s.toLower else acc
          | none => acc
        match tx.toAddr with
        | some s => if s ≠ "" then acc1.insert s.toLower else acc1
        | none => acc1) []
      (addresses, txs.length)

/-- The timestamp decode in BlockProcessor._extract_data_from_blocks:
int(block_data.get("timestamp", "0x0"), 16).  none models a raised
ValueError. -/
def decodeTimestamp (b : Block) : Option Nat :=
  pyIntHex (b.timestamp.getD "0x0")

/-! ## Hex bytes and UTF-8 decoding (token name/symbol strings)

bytesFromHex models Python bytes.fromhex on the plain hexadecimal strings
occurring here (no embedded whitespace); utf8Decode models strict
bytes.decode("utf-8"), rejecting malformed sequences, overlong encodings
and surrogates, as CPython does. -/

def bytesFromHex : List Char → Option (List Nat)
  | [] => some []
  | [_] => none
  | c1 :: c2 :: rest =>
    match hexDigitVal c1, hexDigitVal c2, bytesFromHex rest with
    | some a, some b, some bs => some ((a * 16 + b) :: bs)
    | _, _, _ => none

def isContByte (b : Nat) : Bool := 0x80 ≤ b ∧ b ≤ 0xBF

def mkCodePoint : Nat → Option Char
  | n =>
    if n < 0xD800 ∨ (0xE000 ≤ n ∧ n < 0x110000) then
      some (Char.ofNat n)
    else none

def utf8Decode : List Nat → Option (List Char)
  | [] => some []
  | b1 :: rest1 =>
    if b1 < 0x80 then
      (utf8Decode rest1).map (Char.ofNat b1 :: ·)
    else if 0xC2 ≤ b1 ∧ b1 ≤ 0xDF then
      match rest1 with
      | b2 :: rest2 =>
        if isContByte b2 then
          match mkCodePoint ((b1 - 0xC0) * 64 + (b2 - 0x80)) with
          | some c => (utf8Decode rest2).map (c :: ·)
          | none => none
        else none
      | _ => none
    else if 0xE0 ≤ b1 ∧ b1 ≤ 0xEF then
      match rest1 with
      | b2 :: b3 :: rest3 =>
        let lowOk : Bool :=
          if b1 = 0xE0 then 0xA0 ≤ b2 ∧ b2 ≤ 0xBF
          else if b1 = 0xED then 0x80 ≤ b2 ∧ b2 ≤ 0x9F
          else isContByte b2
        if lowOk ∧ isContByte b3 then
          match mkCodePoint ((b1 - 0xE0) * 4096 + (b2 - 0x80) * 64 + (b3 - 0x80)) with
          | some c => (utf8Decode rest3).map (c :: ·)
          | none => none
        else none
      | _ => none
    else if 0xF0 ≤ b1 ∧ b1 ≤ 0xF4 then
      match rest1 with
      | b2 :: b3 :: b4 :: rest4 =>
        let lowOk : Bool :=
          if b1 = 0xF0 then 0x90 ≤ b2 ∧ b2 ≤ 0xBF
          else if b1 = 0xF4 then 0x80 ≤ b2 ∧ b2 ≤ 0x8F
          else isContByte b2
        if lowOk ∧ isContByte b3 ∧ isContByte b4 then
          match mkCodePoint ((b1 - 0xF0) * 262144 + (b2 - 0x80) * 4096 +
              (b3 - 0x80) * 64 + (b4 - 0x80)) with
          | some c => (utf8Decode rest4).map (c :: ·)
          | none => none
        else none
      | _ => none
    else none

/-- Python str.rstrip applied with the NUL character. -/
def rstripNull (cs : List Char) : List Char :=
  (cs.reverse.dropWhile (· = Char.ofNat 0)).reverse

/-! ## Token detector (archives/1/detection/token_detector.py) -/

/-- TokenDetector._decode_string: skip the 32-byte ABI offset word and the
32-byte length word, hex-decode the remainder, strip trailing NULs and
truncate to 50 characters; any malformed input degrades to "Unknown". -/
def decode_string (hex_data : String) : String :=
  if hex_data.length > 66 then
    let data_part := hex_data.drop 2
    if data_part.length ≥ 128 then
      let string_data := data_part.drop 128
      match bytesFromHex string_data.toList with
      | none => "Unknown"
      | some bs =>
        match utf8Decode bs with
        | none => "Unknown"
        | some cs => String.mk ((rstripNull cs).take 50)
    else "Unknown"
  else "Unknown"

/-- The heterogeneous values stored in the token_data dict. -/
inductive ParsedVal where
  | str (s : String)
  | nat (n : Nat)
  | supply (s : String)
  deriving DecidableEq, Repr

/-- TokenDetector._parse_function_result: dispatch on the ERC-20 function
name; none models the bare except returning None (int() raising). -/
def parse_function_result (func_name result : String) : Option ParsedVal :=
  if func_name = "name" ∨ func_name = "symbol" then
    some (.str (decode_string result))
  else if func_name = "decimals" then
    if result ≠ "0x" then (pyIntHex result).map .nat else some (.nat 0)
  else if func_name = "totalSupply" then
    if result ≠ "0x" then (pyIntHex result).map (fun n => .supply (toString n))
    else some (.supply "0")
  else none

/-- One iteration of the ERC20_FUNCTIONS loop in check_if_token: resp is
the oracle giving the rpc_call("eth_call", ...) outcome for each function
name (none covers a None result and a raised exception alike).  An empty
or "0x" result aborts, then the parsed value is required. -/
def probeCall (resp : String → Option String) (func_name : String) : Option ParsedVal :=
  match resp func_name with
  | none => none
  | some result =>
    if result = "" ∨ result = "0x" then none
    else parse_function_result func_name result

/-- The record assembled by a fully successful probe.  The source collects
the four values in a dict keyed by function name; the final
len(token_data) == 4 check always passes when all four calls parse, since
the four keys are distinct. -/
structure TokenData where
  name : String
  symbol : String
  decimals : Nat
  totalSupply : String
  deriving DecidableEq, Repr

/-- TokenDetector.check_if_token: iterate over the ERC20_FUNCTIONS dict in
insertion order (name, symbol, decimals, totalSupply); any failing call
returns None for the whole probe. -/
def check_if_token (resp : String → Option String) : Option TokenData :=
  match probeCall resp "name" with
  | some (.str n) =>
    match probeCall resp "symbol" with
    | some (.str s) =>
      match probeCall resp "decimals" with
      | some (.nat d) =>
        match probeCall resp "totalSupply" with
        | some (.supply t) => some ⟨n, s, d, t⟩
        | _ => none
      | _ => none
    | _ => none
  | _ => none

/-! ## Wallets table (core/database.py)

The wallets table keyed by address; updated_at (CURRENT_TIMESTAMP) is not
modelled.  The table is modelled as a total lookup function. -/

structure WalletRow where
  address_type : String
  last_activity_block : Nat
  last_activity_timestamp : Nat
  deriving DecidableEq, Repr

def WalletsDB : Type := String → Option WalletRow

def updateWallet (db : WalletsDB) (addr : String) (row : WalletRow) : WalletsDB :=
  fun a => if a = addr then some row else db a

/-- Database.filter_new_addresses: drop every address already stored with a
type other than unknown (returns the empty set for empty input). -/
def filter_new_addresses (db : WalletsDB) (addresses : List String) : List String :=
  if addresses = [] then []
  else addresses.filter (fun a =>
    match db a with
    | some row => row.address_type = "unknown"
    | none => true)

/-- Database.save_addresses: INSERT OR REPLACE each (address, type) pair
with the given block number and timestamp, returning the number of rows
written (0 for an empty dict). -/
def save_addresses (db : WalletsDB) (addresses_data : List (String × String))
    (block_number timestamp : Nat) : WalletsDB × Nat :=
  if addresses_data = [] then (db, 0)
  else
    (addresses_data.foldl
      (fun d p => updateWallet d p.1 ⟨p.2, block_number, timestamp⟩) db,
     addresses_data.length)

/-- BlockProcessor._process_new_addresses: classify only the addresses that
are not already known with a settled type; when every address is already
known, re-save all of them with the literal type "unknown".  The
classifier oracle gives the outcome of classify_addresses_batch per
address (check_address_type never raises, so the batch map is total on its
input).  Token detection for newly classified contracts writes to the
separate tokens table and is not part of the wallets-table effect modelled
here. -/
def process_new_addresses (db : WalletsDB) (classifier : String → String)
    (all_addresses : List String) (current_block last_timestamp : Nat) :
    WalletsDB × Nat :=
  if all_addresses = [] then (db, 0)
  else
    let new_addresses := filter_new_addresses db all_addresses
    let address_types :=
      if new_addresses = [] then all_addresses.map (fun a => (a, "unknown"))
      else new_addresses.map (fun a => (a, classifier a))
    save_addresses db address_types current_block last_timestamp

lemma save_addresses_map_lookup (db : WalletsDB) (l : List String)
    (ty : String → String) (blk ts : Nat) :
    ∀ a, (save_addresses db (l.map (fun x => (x, ty x))) blk ts).1 a =
      if a ∈ l then some ⟨ty a, blk, ts⟩ else db a := by
  have key : ∀ (l2 : List String) (d : WalletsDB) (a : String),
      (l2.map (fun x => (x, ty x))).foldl
        (fun d2 p => updateWallet d2 p.1 ⟨p.2, blk, ts⟩) d a =
      if a ∈ l2 then some ⟨ty a, blk, ts⟩ else d a := by
    intro l2
    induction l2 with
    | nil => intro d a; simp
    | cons x xs ih =>
      intro d a
      simp only [List.map_cons, List.foldl_cons, ih, List.mem_cons]
      by_cases hx : a ∈ xs
      · simp [hx]
      · by_cases hax : a = x
        · simp [hx, hax, updateWallet]
        · simp [hx, hax, updateWallet]
  intro a
  unfold save_addresses
  by_cases hl : l = []
  · subst hl; simp
  · have hne : l.map (fun x => (x, ty x)) ≠ [] := by
      simpa using hl
    rw [if_neg hne]
    exact key l db a

/-! ## Wallet holdings (core/database.py and scanners/simple_smart_scanner.py) -/

structure HoldingRow where
  balance : String
  balance_formatted : String
  deriving DecidableEq, Repr

/-- wallet_tokens table, grouped by wallet: each wallet maps to its list of
(token_address, row) entries. -/
def HoldingsDB : Type := String → List (String × HoldingRow)

/-- Database.save_wallet_tokens: returns immediately when the scan result
dict is empty; otherwise deletes all rows of the wallet and inserts the new
ones. -/
def save_wallet_tokens (db : HoldingsDB) (wallet_address : String)
    (tokens_data : List (String × HoldingRow)) : HoldingsDB :=
  if tokens_data = [] then db
  else fun w => if w = wallet_address then tokens_data else db w

/-- SimpleSmartWalletScanner.scan_wallet_tokens_simple, at the level of the
already-filtered non-zero balances (the result of
get_wallet_token_balances): returns None when no non-zero balance was
found, otherwise the balances enriched with token info; a balance whose
token info cannot be resolved is silently dropped.  format_supply renders
with Python float formatting and is abstracted as the fmt oracle. -/
def scan_wallet_tokens_simple (balances : List (String × String))
    (infoOf : String → Option Nat) (fmt : String → Nat → String) :
    Option (List (String × HoldingRow)) :=
  if balances = [] then none
  else some (balances.filterMap (fun p =>
    match infoOf p.1 with
    | some decimals => some (p.1, ⟨p.2, fmt p.2 decimals⟩)
    | none => none))

/-- The per-wallet persistence step of scan_all_wallets_simple: the batch
loop stores a wallet only when its scan produced a truthy (non-empty)
token dict, then calls save_wallet_tokens. -/
def persistWalletScan (db : HoldingsDB) (wallet : String)
    (scanRes : Option (List (String × HoldingRow))) : HoldingsDB :=
  match scanRes with
  | none => db
  | some tokens => if tokens = [] then db else save_wallet_tokens db wallet tokens

/-! ## RPC manager state (archives/1/core/rpc_manager.py)

The aiohttp session and request ids are irrelevant to the claims and not
modelled.  rpc_failures is the failure-count dict as a total function with
default 0 (deleting a key and storing 0 are indistinguishable through
.get(url, 0)). -/

structure RpcState where
  current_rpc : Option String
  current_rpc_name : String
  rpc_failures : String → Nat
  last_rpc_test : Nat

/-- RPCManager.switch_rpc.  The endpoint tests performed by find_best_rpc
are an oracle (tests); now is the time.time() value at entry.  Returns
(return value, new state, number of find_best_rpc rounds performed).
save_rpc_choice persists the chosen url to the checkpoint row
(current_rpc_url column only); that database effect is modelled separately
by db_save_rpc_choice below. -/
def switch_rpc (tests : List TestResult) (force_retest : Bool) (now : Nat)
    (s : RpcState) : Bool × RpcState × Nat :=
  if force_retest = false ∧ truthyStr s.current_rpc = true ∧
      now - s.last_rpc_test < RPC_RETEST_INTERVAL then
    (true, s, 0)
  else
    match find_best_rpc tests with
    | none => (false, s, 1)
    | some best =>
      let s1 :=
        if truthyStr s.current_rpc = false ∨ s.current_rpc ≠ some best.url then
          { s with current_rpc := some best.url, current_rpc_name := best.name }
        else s
      (true, { s1 with last_rpc_test := now }, 1)

/-- One network interaction of rpc_call: the POST either yields a JSON
body with a "result" value (itself possibly null), a JSON body with an
"error" message, or raises (transport error, timeout, or non-200 HTTP
status, which the source turns into a raised Exception). -/
inductive CallOutcome where
  | ok (v : Option String)
  | jsonErr (msg : String)
  | exc
  deriving Repr

/-- The endpoint-ensuring step at the top of each rpc_call attempt: if no
endpoint is active, force a rotation, consuming the next tests oracle;
none means rotation failed and rpc_call returns None. -/
def ensureEndpoint (s : RpcState) (switches : List (List TestResult))
    (now : Nat) : Option RpcState × List (List TestResult) :=
  if truthyStr s.current_rpc then (some s, switches)
  else
    let sw := switch_rpc (switches.headD []) true now s
    if sw.1 then (some sw.2.1, switches.tail) else (none, switches.tail)

/-- RPCManager.rpc_call, the for attempt in range(2) loop.  posts is the
oracle of outcomes of the POSTs actually issued (consumed in order),
switches the oracle of endpoint-test outcomes for the switch_rpc calls
(consumed in order).  Returns (result, final state, number of POSTs
issued).  The "3000 archived blocks" quota error clears the endpoint and
continues with the NEXT attempt; any other provider error returns None at
once; an exception bumps the failure counter, clears the endpoint at
RPC_MAX_FAILURES, and forces a rotation only on attempt 0. -/
def rpc_call_go : List Nat → RpcState → List CallOutcome →
    List (List TestResult) → Nat → Nat → Option String × RpcState × Nat
  | [], s, _, _, _, made => (none, s, made)
  | attempt :: rest, s, posts, switches, now, made =>
    match ensureEndpoint s switches now with
    | (none, _) => (none, s, made)
    | (some s1, switches1) =>
      match posts.headD .exc with
      | .ok v =>
        (v, { s1 with rpc_failures := fun u =>
          if (some u = s1.current_rpc) then 0 else s1.rpc_failures u }, made + 1)
      | .jsonErr msg =>
        if strContains msg "3000 archived blocks" then
          rpc_call_go rest { s1 with current_rpc := none } posts.tail switches1
            now (made + 1)
        else (none, s1, made + 1)
      | .exc =>
        let key := s1.current_rpc.getD ""
        let s2 := { s1 with rpc_failures := fun u =>
          if u = key then s1.rpc_failures key + 1 else s1.rpc_failures u }
        let s3 := if RPC_MAX_FAILURES ≤ s2.rpc_failures key then
            { s2 with current_rpc := none } else s2
        if attempt = 0 then
          rpc_call_go rest (switch_rpc (switches1.headD []) true now s3).2.1
            posts.tail switches1.tail now (made + 1)
        else
          rpc_call_go rest s3 posts.tail switches1 now (made + 1)

def rpc_call (posts : List CallOutcome) (switches : List (List TestResult))
    (now : Nat) (s : RpcState) : Option String × RpcState × Nat :=
  rpc_call_go [0, 1] s posts switches now 0

/-- The decode step of RPCManager.get_latest_block: int(result, 16) if
result else 0.  The outer none models a raised ValueError (there is no
try/except around this conversion). -/
def get_latest_block_decode (result : Option String) : Option Nat :=
  if truthyStr result then pyIntHex (result.getD "") else some 0

/-- RPCManager.get_latest_block composed over rpc_call. -/
def get_latest_block (posts : List CallOutcome)
    (switches : List (List TestResult)) (now : Nat) (s : RpcState) :
    Option Nat × RpcState :=
  let r := rpc_call posts switches now s
  (get_latest_block_decode r.1, r.2.1)

/-- The failed-cycle test in HyperEVMMonitor.monitoring_cycle:
if not latest_block: ... return False. -/
def latestBlockFailsCycle (latest_block : Nat) : Bool :=
  latest_block = 0

/-! ## Checkpoint row and the monitor run (core/database.py, monitor.py) -/

structure CkptRow where
  current_block : Option Nat
  current_rpc_url : Option String
  deriving DecidableEq, Repr

/-- The monitor-facing state: the single realtime_checkpoint row (none if
it was never created), the wallets table, and the in-memory
HyperEVMMonitor.current_block. -/
structure RunState where
  ckpt : Option CkptRow
  wallets : WalletsDB
  currentBlock : Option Nat

/-- Database.save_checkpoint called without an rpc_url, as the monitor
does: UPDATE realtime_checkpoint SET current_block = ? WHERE id = 1 (a
no-op when the row does not exist). -/
def db_save_checkpoint (s : RunState) (block_number : Nat) : RunState :=
  { s with ckpt := s.ckpt.map (fun r => { r with current_block := some block_number }) }

/-- Database.save_rpc_choice: INSERT ... ON CONFLICT(id) DO UPDATE SET
current_rpc_url; creates the row (current_block NULL) when absent,
otherwise touches only the url column. -/
def db_save_rpc_choice (s : RunState) (url : String) : RunState :=
  match s.ckpt with
  | some r => { s with ckpt := some { r with current_rpc_url := some url } }
  | none => { s with ckpt := some ⟨none, some url⟩ }

/-- The persisted checkpoint block number. -/
def persistedBlock (s : RunState) : Option Nat :=
  s.ckpt.bind (·.current_block)

/-- The loop body of BlockProcessor._extract_data_from_blocks: skip blocks
that raised or are falsy, skip blocks contributing no address, and decode
the timestamp of each counted block (a malformed timestamp raises,
aborting the whole batch; .error models that).  Accumulates the address
set union, the successful-block count, and the transaction total. -/
def extract_data_from_blocks_go : List (Option Block) → List String → Nat →
    Nat → Except Unit (List String × Nat × Nat)
  | [], acc, succ, total => .ok (acc, succ, total)
  | block_data :: rest, acc, succ, total =>
    match block_data with
    | none => extract_data_from_blocks_go rest acc succ total
    | some b =>
      let e := extract_addresses_from_block (some b)
      if e.1 = [] then extract_data_from_blocks_go rest acc succ total
      else
        match decodeTimestamp b with
        | none => .error ()
        | some _ =>
          extract_data_from_blocks_go rest
            (e.1.foldl (fun a x => a.insert x) acc) (succ + 1) (total + e.2)

def extract_data_from_blocks (blocks_data : List (Option Block)) :
    Except Unit (List String × Nat × Nat) :=
  extract_data_from_blocks_go blocks_data [] 0 0

/-- BlockProcessor._fetch_blocks_parallel: one fetch per block number in
[start_block, end_block]; the oracle returns none for a block whose fetch
raised or returned a falsy value. -/
def fetch_blocks_parallel (fetch : Nat → Option Block) (start_block end_block : Nat) :
    List (Option Block) :=
  (List.range' start_block (end_block + 1 - start_block)).map fetch

/-- BlockProcessor.process_block_batch: fetch, extract, then persist the
discovered addresses through _process_new_addresses (with
current_block = end_block).  The activity-slot aggregation writes the
separate wallet_activity_stats table and never the checkpoint; it is not
modelled.  .error models an exception escaping the batch (caught only in
monitoring_cycle). -/
def process_block_batch (fetch : Nat → Option Block) (classifier : String → String)
    (nowTs : Nat) (s : RunState) (start_block end_block : Nat) :
    Except Unit (RunState × Nat) :=
  match extract_data_from_blocks (fetch_blocks_parallel fetch start_block end_block) with
  | .error e => .error e
  | .ok r =>
    let p := process_new_addresses s.wallets classifier r.1 end_block nowTs
    .ok ({ s with wallets := p.1 }, p.2)

/-- The per-cycle oracle inputs: the chain head reported by
get_latest_block, the block-fetch outcomes, the classification outcomes,
and the int(time.time()) stamp. -/
structure CycleIn where
  latest : Nat
  fetch : Nat → Option Block
  classifier : String → String
  nowTs : Nat

/-- The while loop of HyperEVMMonitor.handle_new_blocks: process batches
of BATCH_SIZE blocks, advancing self.current_block and saving the
checkpoint after each completed batch.  Returns the final state, the list
of save_checkpoint arguments in order, and the total address count.  An
exception inside a batch aborts the loop before that batch's checkpoint
write. -/
def handle_batches (env : CycleIn) (start_block : Nat) (s : RunState) :
    RunState × List Nat × Nat :=
  if _h : start_block ≤ env.latest then
    let end_block := min (start_block + BATCH_SIZE - 1) env.latest
    match process_block_batch env.fetch env.classifier env.nowTs s start_block end_block with
    | .error _ => (s, [], 0)
    | .ok p =>
      let s2 := db_save_checkpoint { p.1 with currentBlock := some end_block } end_block
      let r := handle_batches env (end_block + 1) s2
      (r.1, end_block :: r.2.1, p.2 + r.2.2)
  else (s, [], 0)
termination_by env.latest + 1 - start_block
decreasing_by simp only [BATCH_SIZE] at *; omega

/-- HyperEVMMonitor.handle_new_blocks: nothing to do when the head has not
advanced past current_block. -/
def handle_new_blocks (env : CycleIn) (s : RunState) : RunState × List Nat × Nat :=
  match s.currentBlock with
  | none => (s, [], 0)
  | some c => if env.latest ≤ c then (s, [], 0) else handle_batches env (c + 1) s

/-- HyperEVMMonitor.monitoring_cycle, restricted to its checkpoint-writing
ingestion path: a zero (falsy) head fails the cycle; a fresh run
initialises current_block to the head and saves it; otherwise new blocks
are processed.  The maintenance tasks and the periodic endpoint retest
write only the wallets/tokens tables and the checkpoint url column
(db_save_rpc_choice), never the persisted block number. -/
def monitoring_cycle (env : CycleIn) (s : RunState) : RunState × List Nat × Bool :=
  if env.latest = 0 then (s, [], false)
  else
    match s.currentBlock with
    | none =>
      let s1 := db_save_checkpoint { s with currentBlock := some env.latest } env.latest
      (s1, [env.latest], true)
    | some c =>
      if c < env.latest then
        let r := handle_new_blocks env s
        (r.1, r.2.1, true)
      else (s, [], true)

/-- A run: the monitoring loop over a sequence of cycle inputs, collecting
every save_checkpoint argument in order. -/
def run_cycles : List CycleIn → RunState → RunState × List Nat
  | [], s => (s, [])
  | env :: rest, s =>
    let r := monitoring_cycle env s
    let r2 := run_cycles rest r.1
    (r2.1, r.2.1 ++ r2.2)

/-- The startup invariant relating the persisted checkpoint to the
in-memory current_block: initialize copies the saved block into
current_block (a falsy saved block of 0 is skipped). -/
def ckptInv (s : RunState) : Bool :=
  match persistedBlock s, s.currentBlock with
  | some n, some c => decide (n ≤ c)
  | some n, none => decide (n = 0)
  | none, _ => true

/-- HyperEVMMonitor.initialize: current_block is restored from the saved
checkpoint when that is truthy. -/
def initRunState (row : Option CkptRow) (wallets : WalletsDB) : RunState :=
  { ckpt := row, wallets := wallets,
    currentBlock := match row with
      | some r => match r.current_block with
        | some b => if b = 0 then none else some b
        | none => none
      | none => none }

/-! ## Checkpoint-write algebra -/

/-- The effect of a sequence of save_checkpoint writes on the checkpoint
row. -/
def applyWrites (row : Option CkptRow) (ws : List Nat) : Option CkptRow :=
  ws.foldl (fun r w => r.map (fun r2 => { r2 with current_block := some w })) row

/-- The in-memory current_block after a sequence of writes. -/
def lastOption : List Nat → Option Nat → Option Nat
  | [], c => c
  | w :: ws, _ => lastOption ws (some w)

lemma applyWrites_append (row : Option CkptRow) (ws1 ws2 : List Nat) :
    applyWrites row (ws1 ++ ws2) = applyWrites (applyWrites row ws1) ws2 := by
  unfold applyWrites
  rw [List.foldl_append]

lemma lastOption_append (ws1 ws2 : List Nat) (c : Option Nat) :
    lastOption (ws1 ++ ws2) c = lastOption ws2 (lastOption ws1 c) := by
  induction ws1 generalizing c with
  | nil => rfl
  | cons w ws ih =>
    show lastOption (ws ++ ws2) (some w) = lastOption ws2 (lastOption ws (some w))
    exact ih (some w)

lemma applyWrites_none (ws : List Nat) : applyWrites none ws = none := by
  induction ws with
  | nil => rfl
  | cons w ws ih => simpa [applyWrites, List.foldl_cons] using ih

lemma applyWrites_some (r : CkptRow) (ws : List Nat) :
    applyWrites (some r) ws =
      some { r with current_block := lastOption ws r.current_block } := by
  induction ws generalizing r with
  | nil => rfl
  | cons w ws ih =>
    show applyWrites (some { r with current_block := some w }) ws = _
    rw [ih]
    rfl

lemma lastOption_const (ws : List Nat) (c1 c2 : Option Nat) (h : ws ≠ []) :
    lastOption ws c1 = lastOption ws c2 := by
  cases ws with
  | nil => exact absurd rfl h
  | cons w ws => rfl

lemma lastOption_mem (ws : List Nat) (c : Option Nat) (h : ws ≠ []) :
    ∃ l ∈ ws, lastOption ws c = some l := by
  induction ws generalizing c with
  | nil => exact absurd rfl h
  | cons w ws ih =>
    by_cases hws : ws = []
    · subst hws
      exact ⟨w, List.mem_cons_self _ _, rfl⟩
    · obtain ⟨l, hl, he⟩ := ih (some w) hws
      exact ⟨l, List.mem_cons.mpr (Or.inr hl), he⟩

lemma process_block_batch_frame (fetch : Nat → Option Block)
    (classifier : String → String) (nowTs : Nat) (s : RunState)
    (sb eb : Nat) (p : RunState × Nat)
    (h : process_block_batch fetch classifier nowTs s sb eb = .ok p) :
    p.1.ckpt = s.ckpt ∧ p.1.currentBlock = s.currentBlock := by
  unfold process_block_batch at h
  cases hx : extract_data_from_blocks (fetch_blocks_parallel fetch sb eb) with
  | error e => rw [hx] at h; exact Except.noConfusion h
  | ok r =>
    rw [hx] at h
    injection h with h2
    rw [← h2]
    exact ⟨rfl, rfl⟩

lemma db_save_rpc_choice_persistedBlock (s : RunState) (url : String) :
    persistedBlock (db_save_rpc_choice s url) = persistedBlock s := by
  unfold db_save_rpc_choice persistedBlock
  cases s.ckpt <;> rfl

lemma handle_batches_stop (env : CycleIn) (sb : Nat) (s : RunState)
    (h : ¬ sb ≤ env.latest) : handle_batches env sb s = (s, [], 0) := by
  unfold handle_batches
  rw [dif_neg h]

lemma handle_batches_error (env : CycleIn) (sb : Nat) (s : RunState) (e : Unit)
    (hle : sb ≤ env.latest)
    (hpb : process_block_batch env.fetch env.classifier env.nowTs s sb
      (min (sb + BATCH_SIZE - 1) env.latest) = .error e) :
    handle_batches env sb s = (s, [], 0) := by
  unfold handle_batches
  rw [dif_pos hle]
  simp only [hpb]

lemma handle_batches_ok (env : CycleIn) (sb : Nat) (s : RunState)
    (p : RunState × Nat) (hle : sb ≤ env.latest)
    (hpb : process_block_batch env.fetch env.classifier env.nowTs s sb
      (min (sb + BATCH_SIZE - 1) env.latest) = .ok p) :
    handle_batches env sb s =
      ((handle_batches env (min (sb + BATCH_SIZE - 1) env.latest + 1)
          (db_save_checkpoint
            { p.1 with currentBlock := some (min (sb + BATCH_SIZE - 1) env.latest) }
            (min (sb + BATCH_SIZE - 1) env.latest))).1,
       min (sb + BATCH_SIZE - 1) env.latest ::
         (handle_batches env (min (sb + BATCH_SIZE - 1) env.latest + 1)
          (db_save_checkpoint
            { p.1 with currentBlock := some (min (sb + BATCH_SIZE - 1) env.latest) }
            (min (sb + BATCH_SIZE - 1) env.latest))).2.1,
       p.2 + (handle_batches env (min (sb + BATCH_SIZE - 1) env.latest + 1)
          (db_save_checkpoint
            { p.1 with currentBlock := some (min (sb + BATCH_SIZE - 1) env.latest) }
            (min (sb + BATCH_SIZE - 1) env.latest))).2.2) := by
  conv_lhs => unfold handle_batches
  rw [dif_pos hle]
  simp only [hpb]

lemma handle_batches_spec (env : CycleIn) :
    ∀ (k sb : Nat), env.latest + 1 - sb ≤ k → ∀ s : RunState,
      List.Chain' (· < ·) (handle_batches env sb s).2.1 ∧
      (∀ w ∈ (handle_batches env sb s).2.1, sb ≤ w ∧ w ≤ env.latest) ∧
      (handle_batches env sb s).1.ckpt =
        applyWrites s.ckpt (handle_batches env sb s).2.1 ∧
      (handle_batches env sb s).1.currentBlock =
        lastOption (handle_batches env sb s).2.1 s.currentBlock := by
  intro k
  induction k with
  | zero =>
    intro sb hk s
    have hgt : ¬ sb ≤ env.latest := by omega
    rw [handle_batches_stop env sb s hgt]
    exact ⟨List.chain'_nil, by simp, rfl, rfl⟩
  | succ k ih =>
    intro sb hk s
    by_cases hle : sb ≤ env.latest
    · have heb1 : sb ≤ min (sb + BATCH_SIZE - 1) env.latest := by
        simp only [BATCH_SIZE]
        omega
      have heb2 : min (sb + BATCH_SIZE - 1) env.latest ≤ env.latest :=
        min_le_right _ _
      cases hpb : process_block_batch env.fetch env.classifier env.nowTs s sb
          (min (sb + BATCH_SIZE - 1) env.latest) with
      | error e =>
        rw [handle_batches_error env sb s e hle hpb]
        exact ⟨List.chain'_nil, by simp, rfl, rfl⟩
      | ok p =>
        rw [handle_batches_ok env sb s p hle hpb]
        have hk2 : env.latest + 1 - (min (sb + BATCH_SIZE - 1) env.latest + 1) ≤ k := by
          omega
        obtain ⟨ih1, ih2, ih3, ih4⟩ := ih (min (sb + BATCH_SIZE - 1) env.latest + 1) hk2
          (db_save_checkpoint
            { p.1 with currentBlock := some (min (sb + BATCH_SIZE - 1) env.latest) }
            (min (sb + BATCH_SIZE - 1) env.latest))
        obtain ⟨hf1, hf2⟩ := process_block_batch_frame _ _ _ _ _ _ _ hpb
        refine ⟨?_, ?_, ?_, ?_⟩
        · rw [List.chain'_cons']
          refine ⟨?_, ih1⟩
          intro y hy
          have hym : y ∈ (handle_batches env (min (sb + BATCH_SIZE - 1) env.latest + 1)
              (db_save_checkpoint
                { p.1 with currentBlock := some (min (sb + BATCH_SIZE - 1) env.latest) }
                (min (sb + BATCH_SIZE - 1) env.latest))).2.1 :=
            List.mem_of_mem_head? hy
          have := (ih2 y hym).1
          omega
        · intro w hw
          rcases List.mem_cons.mp hw with h1 | h1
          · exact ⟨h1 ▸ heb1, h1 ▸ heb2⟩
          · have := ih2 w h1
            omega
        · show _ = applyWrites s.ckpt (_ :: _)
          rw [ih3]
          unfold applyWrites
          rw [List.foldl_cons]
          congr 1
          show (db_save_checkpoint _ _).ckpt = _
          unfold db_save_checkpoint
          rw [hf1]
        · show _ = lastOption (_ :: _) s.currentBlock
          rw [ih4]
          rfl
    · rw [handle_batches_stop env sb s hle]
      exact ⟨List.chain'_nil, by simp, rfl, rfl⟩

lemma monitoring_cycle_zero (env : CycleIn) (s : RunState)
    (h : env.latest = 0) : monitoring_cycle env s = (s, [], false) := by
  unfold monitoring_cycle
  rw [if_pos h]

lemma monitoring_cycle_first (env : CycleIn) (s : RunState)
    (h0 : ¬ env.latest = 0) (hc : s.currentBlock = none) :
    monitoring_cycle env s =
      (db_save_checkpoint { s with currentBlock := some env.latest } env.latest,
       [env.latest], true) := by
  unfold monitoring_cycle
  rw [if_neg h0, hc]

lemma monitoring_cycle_idle (env : CycleIn) (s : RunState) (c : Nat)
    (h0 : ¬ env.latest = 0) (hc : s.currentBlock = some c)
    (hge : ¬ c < env.latest) : monitoring_cycle env s = (s, [], true) := by
  unfold monitoring_cycle
  rw [if_neg h0, hc]
  simp only [if_neg hge]

lemma monitoring_cycle_advance (env : CycleIn) (s : RunState) (c : Nat)
    (h0 : ¬ env.latest = 0) (hc : s.currentBlock = some c)
    (hlt : c < env.latest) :
    monitoring_cycle env s =
      ((handle_new_blocks env s).1, (handle_new_blocks env s).2.1, true) := by
  unfold monitoring_cycle
  rw [if_neg h0, hc]
  simp only [if_pos hlt]

lemma handle_new_blocks_advance (env : CycleIn) (s : RunState) (c : Nat)
    (hc : s.currentBlock = some c) (hnle : ¬ env.latest ≤ c) :
    handle_new_blocks env s = handle_batches env (c + 1) s := by
  unfold handle_new_blocks
  rw [hc]
  simp only [if_neg hnle]

lemma monitoring_cycle_spec (env : CycleIn) (s : RunState) :
    List.Chain' (· < ·) (monitoring_cycle env s).2.1 ∧
    (∀ c, s.currentBlock = some c → ∀ w ∈ (monitoring_cycle env s).2.1, c < w) ∧
    (monitoring_cycle env s).1.ckpt =
      applyWrites s.ckpt (monitoring_cycle env s).2.1 ∧
    (monitoring_cycle env s).1.currentBlock =
      lastOption (monitoring_cycle env s).2.1 s.currentBlock := by
  by_cases h0 : env.latest = 0
  · rw [monitoring_cycle_zero env s h0]
    exact ⟨List.chain'_nil, by simp, rfl, rfl⟩
  · cases hc : s.currentBlock with
    | none =>
      rw [monitoring_cycle_first env s h0 hc]
      refine ⟨List.chain'_singleton _, ?_, rfl, rfl⟩
      intro c hcc
      exact Option.noConfusion hcc
    | some c =>
      by_cases hlt : c < env.latest
      · rw [monitoring_cycle_advance env s c h0 hc hlt]
        have hnle : ¬ env.latest ≤ c := by omega
        rw [handle_new_blocks_advance env s c hc hnle]
        obtain ⟨h1, h2, h3, h4⟩ :=
          handle_batches_spec env (env.latest + 1 - (c + 1)) (c + 1) (le_refl _) s
        rw [hc] at h4
        refine ⟨h1, ?_, h3, h4⟩
        intro c2 hc2 w hw
        injection hc2 with hc3
        have := (h2 w hw).1
        omega
      · rw [monitoring_cycle_idle env s c h0 hc hlt]
        exact ⟨List.chain'_nil, by simp, rfl, hc⟩

lemma lastOption_of_getLast? :
    ∀ (ws : List Nat) (c : Option Nat) (x : Nat),
      ws.getLast? = some x → lastOption ws c = some x := by
  intro ws
  induction ws with
  | nil =>
    intro c x h
    exact Option.noConfusion h
  | cons w ws ih =>
    intro c x h
    cases hws : ws with
    | nil =>
      subst hws
      rw [List.getLast?_singleton] at h
      injection h with h2
      subst h2
      rfl
    | cons w2 ws2 =>
      subst hws
      rw [List.getLast?_cons_cons] at h
      exact ih (some w) x h

lemma run_cycles_spec (inputs : List CycleIn) (s : RunState) :
    List.Chain' (· < ·) (run_cycles inputs s).2 ∧
    (∀ c, s.currentBlock = some c → ∀ w ∈ (run_cycles inputs s).2, c < w) ∧
    (run_cycles inputs s).1.ckpt = applyWrites s.ckpt (run_cycles inputs s).2 ∧
    (run_cycles inputs s).1.currentBlock =
      lastOption (run_cycles inputs s).2 s.currentBlock := by
  induction inputs generalizing s with
  | nil =>
    refine ⟨List.chain'_nil, ?_, rfl, rfl⟩
    intro c _hc w hw
    exact absurd hw (List.not_mem_nil w)
  | cons env rest ih =>
    obtain ⟨c1, c2, c3, c4⟩ := monitoring_cycle_spec env s
    obtain ⟨r1, r2, r3, r4⟩ := ih (monitoring_cycle env s).1
    have hshape :
        run_cycles (env :: rest) s =
          ((run_cycles rest (monitoring_cycle env s).1).1,
           (monitoring_cycle env s).2.1 ++
             (run_cycles rest (monitoring_cycle env s).1).2) := rfl
    rw [hshape]
    refine ⟨?_, ?_, ?_, ?_⟩
    · rw [List.chain'_append]
      refine ⟨c1, r1, ?_⟩
      intro x hx y hy
      have hcur : (monitoring_cycle env s).1.currentBlock = some x := by
        rw [c4]
        exact lastOption_of_getLast? _ _ x hx
      exact r2 x hcur y (List.mem_of_mem_head? hy)
    · intro c hc w hw
      rcases List.mem_append.mp hw with h1 | h1
      · exact c2 c hc w h1
      · cases hl1 : (monitoring_cycle env s).2.1 with
        | nil =>
          have hcur : (monitoring_cycle env s).1.currentBlock = some c := by
            rw [c4, hl1]
            exact hc
          exact r2 c hcur w h1
        | cons w1 ws1 =>
          obtain ⟨l, hl, he⟩ :=
            lastOption_mem (monitoring_cycle env s).2.1 s.currentBlock
              (by rw [hl1]; exact List.cons_ne_nil _ _)
          have hcur : (monitoring_cycle env s).1.currentBlock = some l := by
            rw [c4, he]
          exact lt_trans (c2 c hc l hl) (r2 l hcur w h1)
    · rw [r3, c3, applyWrites_append]
    · rw [r4, c4, lastOption_append]

/-! ## Claim C2: endpoint selection -/

/-- Claim C2: for every list of endpoint test outcomes, find_best_rpc
returns none exactly when no endpoint is reachable, and otherwise returns
a reachable endpoint from the list that is minimal in the lexicographic
(priority ascending, latency ascending) order among all reachable ones. -/
theorem C2_selectBest_lex_min (results : List TestResult) :
    (find_best_rpc results = none ↔ ∀ r ∈ results, r.success = false) ∧
    (∀ b, find_best_rpc results = some b →
      b ∈ results ∧ b.success = true ∧
        ∀ r ∈ results, r.success = true → keyLe b r) :=
  ⟨find_best_rpc_none_iff results,
   fun b h => find_best_rpc_some_spec results b h⟩

def c2r1 : TestResult := ⟨true, 2, 5, "1RPC", "u1"⟩
def c2r2 : TestResult := ⟨false, 1, 1, "dRPC", "u2"⟩
def c2r3 : TestResult := ⟨true, 2, 3, "Official", "u3"⟩

/-- Witness for C2 at a concrete test-outcome list: the unreachable
priority-1 endpoint is skipped and the faster of the two reachable
priority-2 endpoints wins. -/
theorem C2_selectBest_lex_min_witness :
    find_best_rpc [c2r1, c2r2, c2r3] = some c2r3 ∧
    c2r3.success = true ∧ keyLe c2r3 c2r1 := by
  have he : find_best_rpc [c2r1, c2r2, c2r3] = some c2r3 := by decide
  have h := (C2_selectBest_lex_min [c2r1, c2r2, c2r3]).2 c2r3 he
  exact ⟨he, h.2.1, h.2.2 c2r1 (by decide) (by decide)⟩

/-! ## Claim C3: ERC-20 probe requires all four calls -/

lemma probeCall_some_resp (resp : String → Option String) (f : String)
    (v : ParsedVal) (h : probeCall resp f = some v) :
    ∃ r, resp f = some r ∧ r ≠ "" ∧ r ≠ "0x" := by
  unfold probeCall at h
  cases hr : resp f with
  | none => rw [hr] at h; exact Option.noConfusion h
  | some r =>
    rw [hr] at h
    have h2 : (if r = "" ∨ r = "0x" then none
        else parse_function_result f r) = some v := h
    by_cases hc : r = "" ∨ r = "0x"
    · rw [if_pos hc] at h2
      exact Option.noConfusion h2
    · push_neg at hc
      exact ⟨r, rfl, hc.1, hc.2⟩

lemma probeCall_bad (resp : String → Option String) (f : String)
    (h : resp f = none ∨ resp f = some "" ∨ resp f = some "0x") :
    probeCall resp f = none := by
  unfold probeCall
  rcases h with h | h | h <;> rw [h] <;> simp

lemma check_if_token_some_resp (resp : String → Option String) (t : TokenData)
    (h : check_if_token resp = some t) :
    (∃ r, resp "name" = some r ∧ r ≠ "" ∧ r ≠ "0x") ∧
    (∃ r, resp "symbol" = some r ∧ r ≠ "" ∧ r ≠ "0x") ∧
    (∃ r, resp "decimals" = some r ∧ r ≠ "" ∧ r ≠ "0x") ∧
    (∃ r, resp "totalSupply" = some r ∧ r ≠ "" ∧ r ≠ "0x") := by
  unfold check_if_token at h
  cases h1 : probeCall resp "name" with
  | none => rw [h1] at h; exact Option.noConfusion h
  | some v1 =>
    rw [h1] at h
    cases v1 with
    | nat n => exact Option.noConfusion h
    | supply s2 => exact Option.noConfusion h
    | str n =>
      cases h2 : probeCall resp "symbol" with
      | none => rw [h2] at h; exact Option.noConfusion h
      | some v2 =>
        rw [h2] at h
        cases v2 with
        | nat n2 => exact Option.noConfusion h
        | supply s2 => exact Option.noConfusion h
        | str sy =>
          cases h3 : probeCall resp "decimals" with
          | none => rw [h3] at h; exact Option.noConfusion h
          | some v3 =>
            rw [h3] at h
            cases v3 with
            | str s3 => exact Option.noConfusion h
            | supply s3 => exact Option.noConfusion h
            | nat d =>
              cases h4 : probeCall resp "totalSupply" with
              | none => rw [h4] at h; exact Option.noConfusion h
              | some v4 =>
                rw [h4] at h
                cases v4 with
                | str s4 => exact Option.noConfusion h
                | nat n4 => exact Option.noConfusion h
                | supply ts =>
                  exact ⟨probeCall_some_resp resp "name" _ h1,
                         probeCall_some_resp resp "symbol" _ h2,
                         probeCall_some_resp resp "decimals" _ h3,
                         probeCall_some_resp resp "totalSupply" _ h4⟩

/-- Claim C3: check_if_token yields a token only if all four ERC-20 calls
(name, symbol, decimals, totalSupply) returned a non-empty, non-"0x"
result; in particular an empty, "0x" or missing totalSupply response
forces a none result regardless of the other three probes. -/
theorem C3_probe_requires_all_four (resp : String → Option String) :
    (∀ t, check_if_token resp = some t →
      (∃ r, resp "name" = some r ∧ r ≠ "" ∧ r ≠ "0x") ∧
      (∃ r, resp "symbol" = some r ∧ r ≠ "" ∧ r ≠ "0x") ∧
      (∃ r, resp "decimals" = some r ∧ r ≠ "" ∧ r ≠ "0x") ∧
      (∃ r, resp "totalSupply" = some r ∧ r ≠ "" ∧ r ≠ "0x")) ∧
    ((resp "totalSupply" = none ∨ resp "totalSupply" = some "" ∨
        resp "totalSupply" = some "0x") → check_if_token resp = none) := by
  refine ⟨fun t h => check_if_token_some_resp resp t h, ?_⟩
  intro hbad
  cases hck : check_if_token resp with
  | none => rfl
  | some t =>
    exfalso
    obtain ⟨-, -, -, r, hr, hne, hnx⟩ := check_if_token_some_resp resp t hck
    rcases hbad with h | h | h
    · rw [h] at hr
      exact Option.noConfusion hr
    · rw [h] at hr
      injection hr with hr2
      exact hne hr2.symm
    · rw [h] at hr
      injection hr with hr2
      exact hnx hr2.symm

def c3RespMissingSupply : String → Option String :=
  fun f => if f = "totalSupply" then some "" else some "0x12"

/-- Witness for C3: a contract answering name, symbol and decimals but
returning an empty totalSupply is not detected as a token. -/
theorem C3_probe_requires_all_four_witness :
    check_if_token c3RespMissingSupply = none :=
  (C3_probe_requires_all_four c3RespMissingSupply).2 (Or.inr (Or.inl (by decide)))

/-! ## Claim C1: checkpoint monotonicity -/

/-- Claim C1: across any run (any sequence of monitoring cycles, with
arbitrary chain heads, block-fetch outcomes — including failing fetches —
classification outcomes and timestamps), the sequence of blocks written to
the checkpoint by save_checkpoint is strictly increasing, every written
block is at least the initially persisted checkpoint block, and the
checkpoint/current-block invariant is preserved: the persisted block
number is only ever advanced to the end block of a completed batch (or the
initial head on first run), never rewound. -/
theorem C1_checkpoint_monotone (inputs : List CycleIn) (s : RunState)
    (hinv : ckptInv s = true) :
    List.Chain' (· < ·) (run_cycles inputs s).2 ∧
    (∀ n, persistedBlock s = some n → ∀ w ∈ (run_cycles inputs s).2, n ≤ w) ∧
    ckptInv (run_cycles inputs s).1 = true := by
  obtain ⟨h1, h2, h3, h4⟩ := run_cycles_spec inputs s
  refine ⟨h1, ?_, ?_⟩
  · intro n hn w hw
    unfold ckptInv at hinv
    rw [hn] at hinv
    cases hc : s.currentBlock with
    | none =>
      rw [hc] at hinv
      have hn0 : n = 0 := by simpa using hinv
      omega
    | some c =>
      rw [hc] at hinv
      have hnc : n ≤ c := by simpa using hinv
      have := h2 c hc w hw
      omega
  · cases hws : (run_cycles inputs s).2 with
    | nil =>
      rw [hws] at h3 h4
      have e3 : (run_cycles inputs s).1.ckpt = s.ckpt := h3
      have e4 : (run_cycles inputs s).1.currentBlock = s.currentBlock := h4
      unfold ckptInv at hinv ⊢
      unfold persistedBlock at hinv ⊢
      rw [e3, e4]
      exact hinv
    | cons w1 ws1 =>
      have hne : (run_cycles inputs s).2 ≠ [] := by
        rw [hws]
        exact List.cons_ne_nil _ _
      obtain ⟨l, hl, he⟩ := lastOption_mem (run_cycles inputs s).2 s.currentBlock hne
      have e4 : (run_cycles inputs s).1.currentBlock = some l := by
        rw [h4, he]
      unfold ckptInv
      unfold persistedBlock
      rw [h3, e4]
      cases hck : s.ckpt with
      | none =>
        rw [applyWrites_none]
        rfl
      | some r =>
        rw [applyWrites_some]
        have he2 : lastOption (run_cycles inputs s).2 r.current_block = some l := by
          rw [lastOption_const _ _ s.currentBlock hne]
          exact he
        show (match lastOption (run_cycles inputs s).2 r.current_block, some l with
          | some n, some c => decide (n ≤ c)
          | some n, none => decide (n = 0)
          | none, _ => true) = true
        rw [he2]
        simp

def c1InitState : RunState :=
  { ckpt := some ⟨some 5, none⟩, wallets := fun _ => none, currentBlock := some 5 }

def c1Inputs : List CycleIn :=
  [{ latest := 12, fetch := fun _ => none, classifier := fun _ => "wallet",
     nowTs := 1000 }]

/-- Witness for C1: one cycle from a checkpoint at block 5 with head 12 and
every block fetch failing still writes an increasing checkpoint sequence
and preserves the invariant. -/
theorem C1_checkpoint_monotone_witness :
    List.Chain' (· < ·) (run_cycles c1Inputs c1InitState).2 ∧
    ckptInv (run_cycles c1Inputs c1InitState).1 = true :=
  ⟨(C1_checkpoint_monotone c1Inputs c1InitState (by decide)).1,
   (C1_checkpoint_monotone c1Inputs c1InitState (by decide)).2.2⟩

/-! ## Claim C4: address extraction from a block -/

/-- Claim C4: on every block whose transaction list is
[{from: A, to: B}, {from: C, to: null}] (with A, B, C non-empty address
strings, as Python truthiness skips empty ones), the extracted address set
is exactly the lower-cased {A, B, C} and the transaction count is 2: the
null to contributes no address but its transaction is still counted. -/
theorem C4_extract_null_to (A B C : String)
    (hA : A ≠ "") (hB : B ≠ "") (hC : C ≠ "") :
    (extract_addresses_from_block
      (some ⟨none, some [⟨some A, some B⟩, ⟨some C, none⟩]⟩)).2 = 2 ∧
    (extract_addresses_from_block
      (some ⟨none, some [⟨some A, some B⟩, ⟨some C, none⟩]⟩)).1.toFinset =
      {A.toLower, B.toLower, C.toLower} := by
  have e1 : extract_addresses_from_block
      (some ⟨none, some [⟨some A, some B⟩, ⟨some C, none⟩]⟩) =
      (List.insert C.toLower (List.insert B.toLower
        (List.insert A.toLower [])), 2) := by
    simp [extract_addresses_from_block, hA, hB, hC]
  rw [e1]
  refine ⟨rfl, ?_⟩
  ext x
  simp only [List.mem_toFinset, List.mem_insert_iff, List.not_mem_nil, or_false,
    Finset.mem_insert, Finset.mem_singleton]
  tauto

/-- Witness for C4 at concrete addresses with mixed casing. -/
theorem C4_extract_null_to_witness :
    (extract_addresses_from_block
      (some ⟨none, some [⟨some "0xAA", some "0xBB"⟩, ⟨some "0xCC", none⟩]⟩)).2 = 2 ∧
    (extract_addresses_from_block
      (some ⟨none, some [⟨some "0xAA", some "0xBB"⟩, ⟨some "0xCC", none⟩]⟩)).1.toFinset =
      {"0xAA".toLower, "0xBB".toLower, "0xCC".toLower} :=
  C4_extract_null_to "0xAA" "0xBB" "0xCC" (by decide) (by decide) (by decide)

/-! ## Claim C5: persistence of batch addresses -/

def c5db : WalletsDB :=
  fun a => if a = "0xa" then some ⟨"contract", 5, 50⟩ else none

/-- Counterexample to claim C5.  First scenario: the only observed address
"0xa" is already known with settled type "contract"; the code re-saves it
with the literal type "unknown" (clobbering the settled type) rather than
keeping "contract".  Second scenario: alongside a new address "0xb", the
known address "0xa" is not persisted at all — its row keeps the old block 5
and timestamp 50 instead of being re-stamped with block 10 / timestamp
100. -/
theorem C5_counterexample :
    (process_new_addresses c5db (fun _ => "wallet") ["0xa"] 10 100).1 "0xa" =
      some ⟨"unknown", 10, 100⟩ ∧
    (process_new_addresses c5db (fun _ => "wallet") ["0xa", "0xb"] 10 100).1 "0xa" =
      some ⟨"contract", 5, 50⟩ := by
  constructor <;> rfl

lemma save_addresses_unknown_lookup (db : WalletsDB) (addrs : List String)
    (blk ts : Nat) (a : String) :
    (save_addresses db (addrs.map fun x => (x, "unknown")) blk ts).1 a =
      if a ∈ addrs then some ⟨"unknown", blk, ts⟩ else db a := by
  have h := save_addresses_map_lookup db addrs (fun _ => "unknown") blk ts a
  simpa using h

lemma save_addresses_classified_lookup (db : WalletsDB) (l : List String)
    (classifier : String → String) (blk ts : Nat) (a : String) :
    (save_addresses db (l.map fun x => (x, classifier x)) blk ts).1 a =
      if a ∈ l then some ⟨classifier a, blk, ts⟩ else db a :=
  save_addresses_map_lookup db l classifier blk ts a

/-- Claim C5 as amended: when at least one observed address is new (not
stored with a settled type), exactly the new addresses are persisted, each
with its classification result and the current block/timestamp, and every
other row — including the already-known observed addresses — is left
completely untouched (neither re-typed nor re-stamped).  When every
observed address is already known, all observed addresses are re-saved
with the literal type "unknown" (overwriting their settled types) and the
current block/timestamp. -/
theorem C5_persist_amended (db : WalletsDB) (classifier : String → String)
    (addrs : List String) (blk ts : Nat) :
    (filter_new_addresses db addrs = [] →
      (∀ a ∈ addrs,
        (process_new_addresses db classifier addrs blk ts).1 a =
          some ⟨"unknown", blk, ts⟩) ∧
      (∀ a, a ∉ addrs →
        (process_new_addresses db classifier addrs blk ts).1 a = db a)) ∧
    (filter_new_addresses db addrs ≠ [] →
      (∀ a ∈ filter_new_addresses db addrs,
        (process_new_addresses db classifier addrs blk ts).1 a =
          some ⟨classifier a, blk, ts⟩) ∧
      (∀ a, a ∉ filter_new_addresses db addrs →
        (process_new_addresses db classifier addrs blk ts).1 a = db a)) := by
  by_cases hempty : addrs = []
  · subst hempty
    constructor
    · intro _hf
      refine ⟨fun a ha => absurd ha (List.not_mem_nil a), fun a _ => ?_⟩
      rfl
    · intro hf
      exact absurd rfl hf
  · have hstep : process_new_addresses db classifier addrs blk ts =
        save_addresses db
          (if filter_new_addresses db addrs = [] then
            addrs.map (fun a => (a, "unknown"))
          else (filter_new_addresses db addrs).map (fun a => (a, classifier a)))
          blk ts := by
      unfold process_new_addresses
      rw [if_neg hempty]
    constructor
    · intro hf
      rw [hstep, if_pos hf]
      constructor
      · intro a ha
        rw [save_addresses_unknown_lookup, if_pos ha]
      · intro a ha
        rw [save_addresses_unknown_lookup, if_neg ha]
    · intro hf
      rw [hstep, if_neg hf]
      constructor
      · intro a ha
        rw [save_addresses_classified_lookup, if_pos ha]
      · intro a ha
        rw [save_addresses_classified_lookup, if_neg ha]

/-- Witness for the amended C5: with known contract "0xa" and new address
"0xb" in the batch, "0xb" is saved with its classification and the batch
stamp while the row of "0xa" is exactly the pre-existing one. -/
theorem C5_persist_amended_witness :
    (process_new_addresses c5db (fun _ => "wallet") ["0xa", "0xb"] 10 100).1 "0xb" =
      some ⟨"wallet", 10, 100⟩ ∧
    (process_new_addresses c5db (fun _ => "wallet") ["0xa", "0xb"] 10 100).1 "0xa" =
      c5db "0xa" :=
  ⟨((C5_persist_amended c5db (fun _ => "wallet") ["0xa", "0xb"] 10 100).2
      (by decide)).1 "0xb" (by decide),
   ((C5_persist_amended c5db (fun _ => "wallet") ["0xa", "0xb"] 10 100).2
      (by decide)).2 "0xa" (by decide)⟩

/-! ## Claim C6: the quota error consumes an attempt -/

def quotaMsg : String := "query exceeds 3000 archived blocks limit"

def c6state : RpcState := ⟨some "u1", "dRPC", fun _ => 0, 0⟩

def c6tests : List TestResult := [⟨true, 1, 1, "1RPC", "u2"⟩]

/-- Counterexample to claim C6.  The claim asserts that a quota error is
retried without consuming the two-attempt retry budget, so with outcomes
[quota error, transport exception, successful result] the successful third
POST would be reached and returned.  The code instead spends attempt 0 on
the quota error (the continue advances the loop counter): only 2 POSTs are
issued and the call returns none. -/
theorem C6_counterexample :
    (rpc_call [.jsonErr quotaMsg, .exc, .ok (some "0x5")] [c6tests] 1000
      c6state).1 = none ∧
    (rpc_call [.jsonErr quotaMsg, .exc, .ok (some "0x5")] [c6tests] 1000
      c6state).2.2 = 2 := by
  constructor <;> rfl

lemma ensureEndpoint_active (s : RpcState) (switches : List (List TestResult))
    (now : Nat) (h : truthyStr s.current_rpc = true) :
    ensureEndpoint s switches now = (some s, switches) := by
  unfold ensureEndpoint
  rw [if_pos h]

/-- Claim C6 as amended: with an active endpoint, a provider error on the
first attempt whose message contains "3000 archived blocks" clears the
active endpoint and proceeds to the second (and last) attempt — consuming
one of the two attempts of the retry budget rather than preserving it; any
other provider error aborts at once, returning None after exactly one POST
with the state untouched. -/
theorem C6_quota_amended (s : RpcState) (u msg : String)
    (rest : List CallOutcome) (switches : List (List TestResult)) (now : Nat)
    (hcur : s.current_rpc = some u) (hu : u ≠ "") :
    (strContains msg "3000 archived blocks" = true →
      rpc_call (.jsonErr msg :: rest) switches now s =
        rpc_call_go [1] { s with current_rpc := none } rest switches now 1) ∧
    (strContains msg "3000 archived blocks" = false →
      rpc_call (.jsonErr msg :: rest) switches now s = (none, s, 1)) := by
  have htr : truthyStr s.current_rpc = true := by
    rw [hcur]
    simpa [truthyStr] using hu
  have hens := ensureEndpoint_active s switches now htr
  constructor <;> intro h
  · show rpc_call_go [0, 1] s (.jsonErr msg :: rest) switches now 0 = _
    rw [rpc_call_go, hens]
    simp only [List.headD, List.tail_cons, h, if_true, Nat.zero_add]
  · show rpc_call_go [0, 1] s (.jsonErr msg :: rest) switches now 0 = _
    rw [rpc_call_go, hens]
    simp only [List.headD, List.tail_cons, h, Bool.false_eq_true, if_false,
      Nat.zero_add]

/-- Witness for the amended C6 at concrete inputs: a quota error hands over
to the single remaining attempt with the endpoint cleared; a non-quota
provider error returns none after one POST. -/
theorem C6_quota_amended_witness :
    rpc_call [.jsonErr quotaMsg] [] 1000 c6state =
      rpc_call_go [1] { c6state with current_rpc := none } [] [] 1000 1 ∧
    rpc_call [.jsonErr "execution reverted"] [] 1000 c6state =
      (none, c6state, 1) :=
  ⟨(C6_quota_amended c6state "u1" quotaMsg [] [] 1000 rfl (by decide)).1
      (by decide),
   (C6_quota_amended c6state "u1" "execution reverted" [] [] 1000 rfl
      (by decide)).2 (by decide)⟩

/-! ## Claim C7: rotate is idempotent in the steady state -/

lemma switch_rounds_le_one (tests : List TestResult) (force : Bool)
    (now : Nat) (s : RpcState) : (switch_rpc tests force now s).2.2 ≤ 1 := by
  unfold switch_rpc
  split
  · simp
  · cases hfb : find_best_rpc tests <;> simp

/-- Claim C7: switch_rpc without forceRetest short-circuits (performing no
endpoint test round and returning true with the state unchanged) whenever
an active endpoint exists and the last test is within the retest interval;
consequently two calls within the retest interval of each other perform at
most one round of endpoint tests, provided the first call succeeds (the
steady state) and reachable endpoints have non-empty urls. -/
theorem C7_rotate_idempotent (s : RpcState) (tests1 tests2 : List TestResult)
    (t1 t2 : Nat) :
    (truthyStr s.current_rpc = true →
      t1 - s.last_rpc_test < RPC_RETEST_INTERVAL →
      switch_rpc tests1 false t1 s = (true, s, 0)) ∧
    ((switch_rpc tests1 false t1 s).1 = true →
      t1 ≤ t2 → t2 - t1 < RPC_RETEST_INTERVAL →
      (∀ r ∈ tests1, r.success = true → r.url ≠ "") →
      (switch_rpc tests1 false t1 s).2.2 +
        (switch_rpc tests2 false t2 (switch_rpc tests1 false t1 s).2.1).2.2
        ≤ 1) := by
  constructor
  · intro htr hlt
    unfold switch_rpc
    rw [if_pos ⟨rfl, htr, hlt⟩]
  · intro hb1 h12 h2i hurl
    by_cases hsc : (false : Bool) = false ∧ truthyStr s.current_rpc = true ∧
        t1 - s.last_rpc_test < RPC_RETEST_INTERVAL
    · have he1 : switch_rpc tests1 false t1 s = (true, s, 0) := by
        unfold switch_rpc
        rw [if_pos hsc]
      rw [he1]
      show 0 + (switch_rpc tests2 false t2 s).2.2 ≤ 1
      have := switch_rounds_le_one tests2 false t2 s
      omega
    · cases hfb : find_best_rpc tests1 with
      | none =>
        have he1 : switch_rpc tests1 false t1 s = (false, s, 1) := by
          unfold switch_rpc
          rw [if_neg hsc, hfb]
        rw [he1] at hb1
        exact Bool.noConfusion hb1
      | some best =>
        obtain ⟨hmem, hsucc, -⟩ := find_best_rpc_some_spec tests1 best hfb
        have hbu : best.url ≠ "" := hurl best hmem hsucc
        by_cases hsw : truthyStr s.current_rpc = false ∨
            s.current_rpc ≠ some best.url
        · have he1 : switch_rpc tests1 false t1 s =
              (true, { s with current_rpc := some best.url, current_rpc_name := best.name, last_rpc_test := t1 }, 1) := by
            unfold switch_rpc
            rw [if_neg hsc, hfb]
            simp only [if_pos hsw]
          have he2 : switch_rpc tests2 false t2
              { s with current_rpc := some best.url, current_rpc_name := best.name, last_rpc_test := t1 } =
              (true, { s with current_rpc := some best.url, current_rpc_name := best.name, last_rpc_test := t1 }, 0) := by
            unfold switch_rpc
            rw [if_pos ⟨rfl, by simpa [truthyStr] using hbu, by
              show t2 - t1 < RPC_RETEST_INTERVAL
              omega⟩]
          rw [he1]
          show 1 + (switch_rpc tests2 false t2
            { s with current_rpc := some best.url, current_rpc_name := best.name, last_rpc_test := t1 }).2.2 ≤ 1
          rw [he2]
          simp
        · have he1 : switch_rpc tests1 false t1 s =
              (true, { s with last_rpc_test := t1 }, 1) := by
            unfold switch_rpc
            rw [if_neg hsc, hfb]
            simp only [if_neg hsw]
          push_neg at hsw
          have htr2 : truthyStr s.current_rpc = true := by
            cases hb : truthyStr s.current_rpc
            · exact absurd hb hsw.1
            · rfl
          have he2 : switch_rpc tests2 false t2 { s with last_rpc_test := t1 } =
              (true, { s with last_rpc_test := t1 }, 0) := by
            unfold switch_rpc
            rw [if_pos ⟨rfl, by simpa [truthyStr] using htr2, by
              show t2 - t1 < RPC_RETEST_INTERVAL
              omega⟩]
          rw [he1]
          show 1 + (switch_rpc tests2 false t2
            { s with last_rpc_test := t1 }).2.2 ≤ 1
          rw [he2]
          simp

def c7state : RpcState := ⟨some "u1", "dRPC", fun _ => 0, 900⟩

def c7tests : List TestResult := [⟨true, 1, 1, "1RPC", "u2"⟩]

/-- Witness for C7: with an endpoint tested at time 900, a rotate at 1000
short-circuits, and the rotate pair at 1000 and 1100 performs zero test
rounds in total. -/
theorem C7_rotate_idempotent_witness :
    switch_rpc c7tests false 1000 c7state = (true, c7state, 0) ∧
    (switch_rpc c7tests false 1000 c7state).2.2 +
      (switch_rpc c7tests false 1100
        (switch_rpc c7tests false 1000 c7state).2.1).2.2 ≤ 1 := by
  have h := C7_rotate_idempotent c7state c7tests c7tests 1000 1100
  have h1 := h.1 (by decide) (by decide)
  exact ⟨h1, h.2 (by rw [h1]) (by decide) (by decide) (by decide)⟩

/-! ## Claim C8: hex conversions on "0x" and "" -/

def idleRpcState : RpcState := ⟨some "u1", "dRPC", fun _ => 0, 0⟩

def noRpcState : RpcState := ⟨none, "", fun _ => 0, 0⟩

/-- Counterexample to claim C8: not every hex-to-integer conversion in the
client tolerates "0x" and "": the latest-block accessor applies a bare
int(result, 16) whenever the result is truthy, so a "0x" result raises
ValueError (modelled as none) instead of yielding zero, and the
block-timestamp decode raises on both "0x" and "". -/
theorem C8_counterexample :
    (get_latest_block [.ok (some "0x")] [] 0 idleRpcState).1 = none ∧
    decodeTimestamp ⟨some "0x", none⟩ = none ∧
    decodeTimestamp ⟨some "", none⟩ = none := by
  refine ⟨?_, ?_, ?_⟩ <;> rfl

/-- Claim C8 as amended: safe_hex_to_int maps "" and "0x" to 0, and the
latest-block accessor maps an absent or empty (falsy) rpc result to 0; but
the accessor raises on a literal "0x" result, and the block-timestamp
decode defaults only a missing timestamp key to 0 while raising on "0x"
and "" values — those two call sites do not use safe_hex_to_int. -/
theorem C8_hex_tolerance_amended :
    safe_hex_to_int "" = 0 ∧
    safe_hex_to_int "0x" = 0 ∧
    (get_latest_block [.ok none] [] 0 idleRpcState).1 = some 0 ∧
    (get_latest_block [.ok (some "")] [] 0 idleRpcState).1 = some 0 ∧
    (get_latest_block [.ok (some "0x")] [] 0 idleRpcState).1 = none ∧
    decodeTimestamp ⟨none, none⟩ = some 0 ∧
    decodeTimestamp ⟨some "0x", none⟩ = none ∧
    decodeTimestamp ⟨some "", none⟩ = none := by
  refine ⟨?_, ?_, ?_, ?_, ?_, ?_, ?_, ?_⟩ <;> rfl

/-! ## Claim C9: wallet holdings are not always replaced wholesale -/

def c9db : HoldingsDB :=
  fun w => if w = "0xw" then [("0xt", ⟨"5", "5"⟩)] else []

/-- Counterexample to claim C9: a wallet with existing holdings rows whose
scan finds no balances keeps its old rows — scan_wallet_tokens_simple
returns None on an empty balance map, the batch loop skips falsy scan
results, and save_wallet_tokens returns early on an empty dict — so the
persisted holdings are not the (empty) set of balances found in that
pass. -/
theorem C9_counterexample :
    persistWalletScan c9db "0xw"
      (scan_wallet_tokens_simple [] (fun _ => some 18) (fun b _ => b)) "0xw" =
      [("0xt", ⟨"5", "5"⟩)] ∧
    ([("0xt", (⟨"5", "5"⟩ : HoldingRow))] : List (String × HoldingRow)) ≠ [] := by
  exact ⟨rfl, by decide⟩

/-- Claim C9 as amended: a wallet's holdings are replaced wholesale only
when its scan yields at least one non-zero balance whose token info
resolves; the new rows are then exactly the enriched balances of that scan
pass and other wallets are untouched.  A scan finding no balances (or only
balances whose token info cannot be resolved) leaves the wallet's previous
rows in place. -/
theorem C9_replace_amended (db : HoldingsDB) (wallet : String)
    (balances : List (String × String)) (infoOf : String → Option Nat)
    (fmt : String → Nat → String) :
    (balances = [] →
      persistWalletScan db wallet
        (scan_wallet_tokens_simple balances infoOf fmt) = db) ∧
    (∀ e, scan_wallet_tokens_simple balances infoOf fmt = some e → e = [] →
      persistWalletScan db wallet
        (scan_wallet_tokens_simple balances infoOf fmt) = db) ∧
    (∀ e, scan_wallet_tokens_simple balances infoOf fmt = some e → e ≠ [] →
      persistWalletScan db wallet
        (scan_wallet_tokens_simple balances infoOf fmt) wallet = e ∧
      (∀ w2, w2 ≠ wallet →
        persistWalletScan db wallet
          (scan_wallet_tokens_simple balances infoOf fmt) w2 = db w2)) := by
  refine ⟨?_, ?_, ?_⟩
  · intro hb
    unfold scan_wallet_tokens_simple
    rw [if_pos hb]
    rfl
  · intro e he hee
    rw [he]
    unfold persistWalletScan
    rw [hee]
    rfl
  · intro e he hee
    rw [he]
    unfold persistWalletScan save_wallet_tokens
    simp only [if_neg hee]
    constructor
    · simp
    · intro w2 hw2
      simp [hw2]

/-- Witness for the amended C9: a scan finding the single balance 7 of
token "0xt2" replaces the rows of wallet "0xw" with exactly that holding
and leaves wallet "0xz" untouched. -/
theorem C9_replace_amended_witness :
    persistWalletScan c9db "0xw"
      (scan_wallet_tokens_simple [("0xt2", "7")] (fun _ => some 0)
        (fun b _ => b)) "0xw" = [("0xt2", ⟨"7", "7"⟩)] ∧
    persistWalletScan c9db "0xw"
      (scan_wallet_tokens_simple [("0xt2", "7")] (fun _ => some 0)
        (fun b _ => b)) "0xz" = c9db "0xz" := by
  have h := (C9_replace_amended c9db "0xw" [("0xt2", "7")] (fun _ => some 0)
    (fun b _ => b)).2.2 [("0xt2", ⟨"7", "7"⟩)] (by rfl) (by decide)
  exact ⟨h.1, h.2 "0xz" (by decide)⟩

/-! ## Claim C10: latest-block failure is indistinguishable from height 0 -/

/-- Claim C10: whenever the underlying rpc_call yields no result — no
reachable endpoint, a provider error, or a null result — get_latest_block
returns 0, the same value it returns for an actual chain height of 0
("0x0"), and the monitoring loop treats that value as a failed cycle; a
caller cannot distinguish the two situations. -/
theorem C10_zero_ambiguity :
    (get_latest_block [] [[]] 0 noRpcState).1 = some 0 ∧
    (get_latest_block [.jsonErr "execution reverted"] [] 0 idleRpcState).1 =
      some 0 ∧
    (get_latest_block [.ok none] [] 0 idleRpcState).1 = some 0 ∧
    (get_latest_block [.ok (some "0x0")] [] 0 idleRpcState).1 = some 0 ∧
    latestBlockFailsCycle 0 = true := by
  refine ⟨?_, ?_, ?_, ?_, ?_⟩ <;> rfl

end EvmMonitor
